import Mathlib

/-!
Verification of the chess rules engine in `src/app.js` (Chess-Game repository).

The JavaScript module keeps its state in module-level globals
(`board`, `turn`, `selected`, `legal`, `lastDouble`, `gameOver`,
`captured`, `history`, plus the DOM move list `movesEl`).  Here the
whole mutable state is a `Session` value and every function that
mutates the globals takes and returns a `Session`.  The board is an
8 by 8 optional-piece grid, modelled as a function from a pair of
natural-number coordinates; out-of-range reads return `none` exactly
as `at(r,c)` does via its `inBounds` guard.  All coordinates that can
go negative during generation are `Int`, as in the source.
-/

set_option maxRecDepth 4000

inductive Color where
  | w
  | b
deriving DecidableEq, Repr

def other : Color → Color
  | .w => .b
  | .b => .w

inductive PieceType where
  | K
  | Q
  | R
  | B
  | N
  | P
deriving DecidableEq, Repr

structure Piece where
  t : PieceType
  c : Color
  moved : Bool
deriving DecidableEq, Repr

/-- `{r, c, dir}` object stored in the global `lastDouble`. -/
structure LD where
  r : Int
  c : Int
  dir : Int
deriving DecidableEq, Repr

inductive Side where
  | k
  | q
deriving DecidableEq, Repr

/-- A move descriptor as produced by `genPseudo`: destination square plus
the optional `cap` / `double` / `ep` / `castle` fields. -/
structure MoveOpt where
  r : Int
  c : Int
  cap : Bool := false
  double : Bool := false
  ep : Bool := false
  castle : Option Side := none
deriving DecidableEq, Repr

abbrev Board := Nat → Nat → Option Piece

/-- `inBounds(r,c)` from app.js line 67. -/
def inBoundsB (r c : Int) : Bool := 0 ≤ r && r < 8 && 0 ≤ c && c < 8

/-- `at(r,c)` from app.js line 68: guarded board read. -/
def getSq (bd : Board) (r c : Int) : Option Piece :=
  if inBoundsB r c then bd r.toNat c.toNat else none

/-- `board[r][c] = p` as a functional update. -/
def setSq (bd : Board) (r c : Nat) (p : Option Piece) : Board :=
  fun r' c' => if r' = r ∧ c' = c then p else bd r' c'

/-- `empty(r,c)` from app.js line 69. -/
def emptySq (bd : Board) (r c : Int) : Bool :=
  inBoundsB r c && (getSq bd r c).isNone

/-- `ally(r,c,clr)` from app.js line 70. -/
def allySq (bd : Board) (r c : Int) (clr : Color) : Bool :=
  match getSq bd r c with
  | some p => p.c == clr
  | none => false

/-- `enemy(r,c,clr)` from app.js line 71. -/
def enemySq (bd : Board) (r c : Int) (clr : Color) : Bool :=
  match getSq bd r c with
  | some p => p.c != clr
  | none => false

/-- UNI piece icons (app.js lines 15-18). -/
def uni : Color → PieceType → Char
  | .w, .K => Char.ofNat 0x2654
  | .w, .Q => Char.ofNat 0x2655
  | .w, .R => Char.ofNat 0x2656
  | .w, .B => Char.ofNat 0x2657
  | .w, .N => Char.ofNat 0x2658
  | .w, .P => Char.ofNat 0x2659
  | .b, .K => Char.ofNat 0x265A
  | .b, .Q => Char.ofNat 0x265B
  | .b, .R => Char.ofNat 0x265C
  | .b, .B => Char.ofNat 0x265D
  | .b, .N => Char.ofNat 0x265E
  | .b, .P => Char.ofNat 0x265F

/-- The object built by `snapshot()` (app.js lines 77-87); `movesHTML`
is modelled as the list of move-list entries. -/
structure Snapshot where
  board : Board
  turn : Color
  selected : Option (Int × Int)
  legal : List MoveOpt
  lastDouble : Option LD
  capturedByWhite : List Char
  capturedByBlack : List Char
  movesLog : List String

/-- The whole mutable global state of app.js. -/
structure Session where
  board : Board
  turn : Color
  selected : Option (Int × Int)
  legal : List MoveOpt
  lastDouble : Option LD
  capturedByWhite : List Char
  capturedByBlack : List Char
  movesLog : List String
  gameOver : Bool
  history : List Snapshot

/-- `snapshot()` (app.js lines 77-87).  Deep copies are value copies here. -/
def snapshot (s : Session) : Snapshot :=
  { board := s.board, turn := s.turn, selected := s.selected, legal := s.legal,
    lastDouble := s.lastDouble, capturedByWhite := s.capturedByWhite,
    capturedByBlack := s.capturedByBlack, movesLog := s.movesLog }

/-- `restoreSnapshot(s)` (app.js lines 88-97): writes the snapshot's fields
back into the globals; `gameOver` and `history` are not touched. -/
def restoreSnapshot (cur : Session) (s : Snapshot) : Session :=
  { cur with
    board := s.board, turn := s.turn, selected := s.selected,
    legal := s.legal, lastDouble := s.lastDouble,
    capturedByWhite := s.capturedByWhite, capturedByBlack := s.capturedByBlack,
    movesLog := s.movesLog }

/-- One step list of the `rays` inner loop of `genPseudo` (app.js lines
127-140): walk from `(rr,cc)` in direction `(dr,dc)` until blocked.  The
fuel bound 8 is one more than the longest possible in-bounds run. -/
def rayFrom (bd : Board) (clr : Color) : Nat → Int → Int → Int → Int → List MoveOpt
  | 0, _, _, _, _ => []
  | fuel+1, rr, cc, dr, dc =>
    if inBoundsB rr cc then
      match getSq bd rr cc with
      | some p => if p.c != clr then [{ r := rr, c := cc, cap := true }] else []
      | none => { r := rr, c := cc } :: rayFrom bd clr fuel (rr+dr) (cc+dc) dr dc
    else []

def rayMoves (bd : Board) (clr : Color) (r c : Int) (dirs : List (Int × Int)) : List MoveOpt :=
  dirs.flatMap fun d => rayFrom bd clr 8 (r + d.1) (c + d.2) d.1 d.2

def bishopDirs : List (Int × Int) := [(1,1),(1,-1),(-1,1),(-1,-1)]

def rookDirs : List (Int × Int) := [(1,0),(-1,0),(0,1),(0,-1)]

def queenDirs : List (Int × Int) := [(1,1),(1,-1),(-1,1),(-1,-1),(1,0),(-1,0),(0,1),(0,-1)]

/-- Pawn branch of `genPseudo` (app.js lines 142-158). -/
def pawnMoves (bd : Board) (ld : Option LD) (r c : Int) (clr : Color) (forAttack : Bool) : List MoveOpt :=
  let dir : Int := if clr = .w then -1 else 1
  let start : Int := if clr = .w then 6 else 1
  let pushes :=
    if !forAttack then
      if emptySq bd (r+dir) c then
        { r := r+dir, c := c } ::
          (if r = start && emptySq bd (r+2*dir) c then
            [{ r := r+2*dir, c := c, double := true }] else [])
      else []
    else []
  let caps := ([-1, 1] : List Int).flatMap fun dc =>
    if enemySq bd (r+dir) (c+dc) clr then [{ r := r+dir, c := c+dc, cap := true }] else []
  let eps :=
    match ld with
    | some L =>
      if L.r = r && (L.c - c).natAbs = 1 && r = (if clr = .w then 3 else 4) then
        [{ r := r+dir, c := L.c, cap := true, ep := true }]
      else []
    | none => []
  pushes ++ caps ++ eps

def knightDeltas : List (Int × Int) :=
  [(-2,-1),(-2,1),(-1,-2),(-1,2),(1,-2),(1,2),(2,-1),(2,1)]

/-- Knight branch of `genPseudo` (app.js lines 159-166). -/
def knightMoves (bd : Board) (r c : Int) (clr : Color) : List MoveOpt :=
  knightDeltas.flatMap fun d =>
    let rr := r + d.1
    let cc := c + d.2
    if inBoundsB rr cc && !allySq bd rr cc clr then
      [{ r := rr, c := cc, cap := enemySq bd rr cc clr }]
    else []

/-- The king's one-step offsets in the order the double loop of app.js
lines 171-178 visits them. -/
def kingDeltas : List (Int × Int) :=
  [(-1,-1),(-1,0),(-1,1),(0,-1),(0,1),(1,-1),(1,0),(1,1)]

def kingRingMoves (bd : Board) (r c : Int) (clr : Color) : List MoveOpt :=
  kingDeltas.flatMap fun d =>
    let rr := r + d.1
    let cc := c + d.2
    if inBoundsB rr cc && !allySq bd rr cc clr then
      [{ r := rr, c := cc, cap := enemySq bd rr cc clr }]
    else []

/-- `genPseudo(r,c,true)`: the `forAttack = true` instance of app.js lines
123-184.  With `forAttack` true the pawn push branch and the whole
castling branch (guarded by `!forAttack`) are dead code, so this
function needs none of the check-detection machinery and the mutual
recursion of the source is broken exactly as its mode flag intends. -/
def genPseudoA (st : Session) (r c : Int) : List MoveOpt :=
  match getSq st.board r c with
  | none => []
  | some p =>
    match p.t with
    | .P => pawnMoves st.board st.lastDouble r c p.c true
    | .N => knightMoves st.board r c p.c
    | .B => rayMoves st.board p.c r c bishopDirs
    | .R => rayMoves st.board p.c r c rookDirs
    | .Q => rayMoves st.board p.c r c queenDirs
    | .K => kingRingMoves st.board r c p.c

/-- The 64 squares in the row-major order the loops of app.js scan. -/
def squares : List (Int × Int) :=
  (List.range 8).flatMap fun r => (List.range 8).map fun c => ((r : Int), (c : Int))

/-- `attacksSquare(color,r,c)` (app.js lines 106-116). -/
def attacksSquare (st : Session) (clr : Color) (r c : Int) : Bool :=
  squares.any fun s =>
    match getSq st.board s.1 s.2 with
    | some p => p.c == clr && (genPseudoA st s.1 s.2).any fun m => m.r == r && m.c == c
    | none => false

/-- `kingPos(color)` (app.js lines 100-105). -/
def kingPos (st : Session) (clr : Color) : Option (Int × Int) :=
  squares.find? fun s =>
    match getSq st.board s.1 s.2 with
    | some p => p.t == PieceType.K && p.c == clr
    | none => false

/-- `inCheck(color)` (app.js lines 117-120). -/
def inCheck (st : Session) (clr : Color) : Bool :=
  match kingPos st clr with
  | some kp => attacksSquare st (other clr) kp.1 kp.2
  | none => false

def homeRow (clr : Color) : Int := if clr = .w then 7 else 0

def rookCol (side : Side) : Int := if side = .k then 7 else 0

def castleStep (side : Side) : Int := if side = .k then 1 else -1

/-- The `for(let c=kC+step; c!==rC; c+=step)` emptiness loop of
`canCastle` (app.js line 194), with fuel. -/
def blockedBetween (bd : Board) (row : Int) : Nat → Int → Int → Int → Bool
  | 0, _, _, _ => false
  | fuel+1, cc, stop, step =>
    if cc = stop then false
    else !emptySq bd row cc || blockedBetween bd row fuel (cc+step) stop step

/-- The `for(let c=kC; c!==kC+2*step; c+=step)` attack loop of
`canCastle` (app.js lines 195-197), with fuel. -/
def pathAttacked (st : Session) (oc : Color) (row : Int) : Nat → Int → Int → Int → Bool
  | 0, _, _, _ => false
  | fuel+1, cc, stop, step =>
    if cc = stop then false
    else attacksSquare st oc row cc || pathAttacked st oc row fuel (cc+step) stop step

/-- `canCastle(color, side)` (app.js lines 186-199). -/
def canCastle (st : Session) (clr : Color) (side : Side) : Bool :=
  let row := homeRow clr
  let kC : Int := 4
  let rC := rookCol side
  let step := castleStep side
  match getSq st.board row rC, getSq st.board row kC with
  | some rook, some king =>
    if king.t != PieceType.K || rook.t != PieceType.R || king.moved || rook.moved then false
    else if blockedBetween st.board row 8 (kC+step) rC step then false
    else if pathAttacked st (other clr) row 8 kC (kC+2*step) step then false
    else true
  | _, _ => false

/-- `genPseudo(r,c,forAttack)` (app.js lines 123-184). -/
def genPseudo (st : Session) (r c : Int) (forAttack : Bool) : List MoveOpt :=
  match getSq st.board r c with
  | none => []
  | some p =>
    match p.t with
    | .P => pawnMoves st.board st.lastDouble r c p.c forAttack
    | .N => knightMoves st.board r c p.c
    | .B => rayMoves st.board p.c r c bishopDirs
    | .R => rayMoves st.board p.c r c rookDirs
    | .Q => rayMoves st.board p.c r c queenDirs
    | .K =>
      kingRingMoves st.board r c p.c ++
        (if !forAttack && !p.moved && !inCheck st p.c then
          (if canCastle st p.c .k then [{ r := r, c := c+2, castle := some Side.k }] else []) ++
            (if canCastle st p.c .q then [{ r := r, c := c-2, castle := some Side.q }] else [])
         else [])

/-- `algebra(r,c)` (app.js line 72). -/
def algebra (r c : Int) : String :=
  String.mk [Char.ofNat (97 + c.toNat)] ++ toString (8 - r)

def pieceLetter : PieceType → String
  | .K => "K"
  | .Q => "Q"
  | .R => "R"
  | .B => "B"
  | .N => "N"
  | .P => "P"

/-- `logMove(piece, capturedPiece, from, to, meta)` (app.js lines 369-386);
`movesEl`'s children are modelled as a list of strings.  `turn` is the
global read at line 376, still the mover's color when called. -/
def logMove (piece : Piece) (target : Option Piece) (toSq : Int × Int) (meta : MoveOpt)
    (turn : Color) (log : List String) : List String :=
  let name := if piece.t = .P then "" else pieceLetter piece.t
  let capture := if target.isSome || meta.ep then "x" else ""
  let dest := algebra toSq.1 toSq.2
  let promo := if piece.t = .P && (toSq.1 == 0 || toSq.1 == 7) then "=Q" else ""
  let castleS := match meta.castle with
    | some .k => "O-O"
    | some .q => "O-O-O"
    | none => ""
  let moveText := if castleS = "" then name ++ capture ++ dest ++ promo else castleS
  if turn = .w then
    log ++ [toString (log.length + 1) ++ ". " ++ moveText]
  else
    match log with
    | [] => log
    | _ => log.dropLast ++ [log.getLastD "" ++ "   " ++ moveText]

/-- The board mutations of `applyMove` (app.js lines 234-247). -/
def applyBoard (bd : Board) (fr toSq : Int × Int) (meta : MoveOpt) (piece : Piece) : Board :=
  -- line 234: remove the en-passant-captured pawn
  let bd0 := if meta.ep then setSq bd fr.1.toNat toSq.2.toNat none else bd
  -- lines 236-237: move the piece, marking it moved
  let bd1 := setSq bd0 toSq.1.toNat toSq.2.toNat (some { piece with moved := true })
  let bd2 := setSq bd1 fr.1.toNat fr.2.toNat none
  -- lines 239-243: castling relocates the rook read from the to-row corner
  -- of the already-updated board (a missing corner piece would leave the
  -- square empty here; every castle move the generator emits has the rook)
  let bd3 := match meta.castle with
    | some .k =>
      setSq (setSq bd2 toSq.1.toNat 5 ((bd2 toSq.1.toNat 7).map fun (q : Piece) => { q with moved := true }))
        toSq.1.toNat 7 none
    | some .q =>
      setSq (setSq bd2 toSq.1.toNat 3 ((bd2 toSq.1.toNat 0).map fun (q : Piece) => { q with moved := true }))
        toSq.1.toNat 0 none
    | none => bd2
  -- lines 245-247: promotion rewrites the landed piece's type in place
  match bd3 toSq.1.toNat toSq.2.toNat with
  | some q => if q.t == PieceType.P && (toSq.1 == 0 || toSq.1 == 7) then
      setSq bd3 toSq.1.toNat toSq.2.toNat (some { q with t := .Q }) else bd3
  | none => bd3

/-- `applyMove(m, simulate)` (app.js lines 216-256).  The source reads
`piece = at(from)` and every caller passes an occupied source square;
with an empty source this returns the state unchanged.  `renderCaptured`
is pure DOM output and has no counterpart here. -/
def applyMove (st : Session) (fr toSq : Int × Int) (meta : MoveOpt) (simulate : Bool) : Session :=
  match getSq st.board fr.1 fr.2 with
  | none => st
  | some piece =>
    let target := getSq st.board toSq.1 toSq.2
    -- lines 221-225: a normal capture pushes the target's icon into the
    -- mover's bin (skipped in simulation)
    let bins1 : List Char × List Char :=
      match target with
      | some tp =>
        if !simulate then
          if piece.c = .w then (st.capturedByWhite ++ [uni tp.c tp.t], st.capturedByBlack)
          else (st.capturedByWhite, st.capturedByBlack ++ [uni tp.c tp.t])
        else (st.capturedByWhite, st.capturedByBlack)
      | none => (st.capturedByWhite, st.capturedByBlack)
    -- lines 226-233: en passant pushes the pawn read from `at(from.r, to.c)`
    -- on the still-unmodified board
    let bins2 : List Char × List Char :=
      if meta.ep && !simulate then
        match getSq st.board fr.1 toSq.2 with
        | some epPawn =>
          if piece.c = .w then (bins1.1 ++ [uni epPawn.c epPawn.t], bins1.2)
          else (bins1.1, bins1.2 ++ [uni epPawn.c epPawn.t])
        | none => bins1
      else bins1
    -- lines 249-250: the en-passant window opens only on a double pawn push
    let ld : Option LD :=
      if piece.t == PieceType.P && meta.double then
        some { r := toSq.1, c := toSq.2, dir := if piece.c = .w then -1 else 1 }
      else none
    -- lines 252-255: log the move (skipped in simulation)
    let log := if !simulate then logMove piece target toSq meta st.turn st.movesLog
      else st.movesLog
    { st with board := applyBoard st.board fr toSq meta piece, lastDouble := ld,
              capturedByWhite := bins2.1, capturedByBlack := bins2.2, movesLog := log }

/-- The body of the `for(const m of pseudo)` loop of `genLegal`
(app.js lines 205-211), threading the mutated-then-restored session so
that the simulation's effect on the shared state stays observable. -/
def genLegalLoop (r c : Int) (clr : Color) : List MoveOpt → Session → List MoveOpt × Session
  | [], s => ([], s)
  | m :: ms, s =>
    let snap := snapshot s
    let s1 := applyMove s (r, c) (m.r, m.c) m true
    let safe := !inCheck s1 clr
    let s2 := restoreSnapshot s1 snap
    let rest := genLegalLoop r c clr ms s2
    (if safe then m :: rest.1 else rest.1, rest.2)

/-- `genLegal(r,c)` (app.js lines 200-213) together with the session it
leaves behind. -/
def genLegalS (st : Session) (r c : Int) : List MoveOpt × Session :=
  let pseudo := genPseudo st r c false
  match getSq st.board r c with
  | none => ([], st)
  | some p => genLegalLoop r c p.c pseudo st

def genLegal (st : Session) (r c : Int) : List MoveOpt :=
  (genLegalS st r c).1

inductive Status where
  | ongoing
  | checkmate
  | stalemate
deriving DecidableEq, Repr

/-- `anyLegalMove(color)` (app.js lines 322-332). -/
def anyLegalMove (st : Session) (clr : Color) : Bool :=
  squares.any fun s =>
    match getSq st.board s.1 s.2 with
    | some p => p.c == clr && !(genLegal st s.1 s.2).isEmpty
    | none => false

/-- `gameStatus(colorToMove)` (app.js lines 317-321). -/
def gameStatus (st : Session) (clr : Color) : Status :=
  if anyLegalMove st clr then .ongoing
  else if inCheck st clr then .checkmate
  else .stalemate

/-- The state effect of `render()` (app.js lines 259-298): everything it
does is DOM output except setting `gameOver` from the status of the side
to move (lines 285-295). -/
def render (st : Session) : Session :=
  { st with gameOver := gameStatus st st.turn != Status.ongoing }

/-- The commit branch of `onSquareClick` (app.js lines 359-365): push a
snapshot, apply the move, toggle the turn, clear the selection. -/
def commitMove (st : Session) (sel : Int × Int) (r c : Int) (mv : MoveOpt) : Session :=
  let st1 := { st with history := snapshot st :: st.history }
  let st2 := applyMove st1 sel (r, c) mv false
  render { st2 with turn := other st2.turn, selected := none, legal := [] }

/-- `onSquareClick` (app.js lines 335-366) for a click on square `(r,c)`.
The JS history array pushes and pops at its end; the model keeps the
most recent snapshot at the head of the list. -/
def clickSquare (st : Session) (r c : Int) : Session :=
  if st.gameOver then st
  else
    match st.selected with
    | none =>
      match getSq st.board r c with
      | none => st
      | some p =>
        if p.c = st.turn then
          render { st with selected := some (r, c), legal := genLegal st r c }
        else st
    | some sel =>
      if (getSq st.board r c).any (fun q => q.c == st.turn) then
        render { st with selected := some (r, c), legal := genLegal st r c }
      else
        match st.legal.find? (fun m => m.r == r && m.c == c) with
        | none => render { st with selected := none, legal := [] }
        | some mv => commitMove st sel r c mv

/-- `undo()` (app.js lines 389-397). -/
def undo (s : Session) : Session :=
  match s.history with
  | [] => s
  | last :: rest =>
    render { restoreSnapshot { s with history := rest } last with
             gameOver := false, selected := none, legal := [] }

def charType : Char → Option PieceType
  | 'K' => some .K
  | 'Q' => some .Q
  | 'R' => some .R
  | 'B' => some .B
  | 'N' => some .N
  | 'P' => some .P
  | _ => none

/-- One rank of `loadFEN`'s parse (app.js lines 51-60).  A letter outside
KQRBNP would make the source store a junk piece type; the model skips it
(the only input ever parsed is the initial FEN, which has none). -/
def parseRow (bd : Board) (r : Nat) : List Char → Nat → Board
  | [], _ => bd
  | ch :: rest, file =>
    if ch.isDigit then parseRow bd r rest (file + (ch.toNat - 48))
    else
      match charType ch.toUpper with
      | some t =>
        parseRow (setSq bd r file (some { t := t, c := if ch.isUpper then .w else .b, moved := false }))
          r rest (file + 1)
      | none => parseRow bd r rest (file + 1)

def emptyBoard : Board := fun _ _ => none

def parseRows (bd : Board) : Nat → List (List Char) → Board
  | _, [] => bd
  | r, row :: rest => parseRows (parseRow bd r row 0) (r + 1) rest

/-- `str.split(sep)` on a character separator, as a list of chunks. -/
def splitOnChar (sep : Char) : List Char → List (List Char)
  | [] => [[]]
  | ch :: rest =>
    let r := splitOnChar sep rest
    if ch = sep then [] :: r
    else (ch :: r.headD []) :: r.tail

/-- The board produced by `loadFEN(fen)` (app.js lines 48-64):
`fen.split(' ')[0].split('/')`, one rank per chunk. -/
def loadFEN (fen : String) : Board :=
  parseRows emptyBoard 0 (splitOnChar '/' ((splitOnChar ' ' fen.data).headD []))

def initialFEN : String := "rnbqkbnr/pppppppp/8/8/8/8/PPPPPPPP/RNBQKBNR"

/-- The session after `init()` (app.js lines 409-429): initial FEN loaded,
White to move, nothing selected, empty bins, empty history.  The final
`render()` of `init` leaves every field as written here. -/
def initSession : Session :=
  { board := loadFEN initialFEN, turn := .w, selected := none, legal := [],
    lastDouble := none, capturedByWhite := [], capturedByBlack := [],
    movesLog := [], gameOver := false, history := [] }


/-- `applyMove` only ever writes the board, the en-passant target, the
capture bins and the move log; turn, selection, game-over flag and
history are untouched. -/
theorem applyMove_frame (st : Session) (fr toSq : Int × Int) (meta : MoveOpt) (sim : Bool) :
    (applyMove st fr toSq meta sim).turn = st.turn ∧
    (applyMove st fr toSq meta sim).selected = st.selected ∧
    (applyMove st fr toSq meta sim).legal = st.legal ∧
    (applyMove st fr toSq meta sim).gameOver = st.gameOver ∧
    (applyMove st fr toSq meta sim).history = st.history := by
  unfold applyMove
  cases hp : getSq st.board fr.1 fr.2 with
  | none => exact ⟨rfl, rfl, rfl, rfl, rfl⟩
  | some piece => exact ⟨rfl, rfl, rfl, rfl, rfl⟩

/-- In simulation mode `applyMove` writes only the board and the
en-passant target: both `if(... && !simulate)` bin updates and the
logging block are skipped. -/
theorem applyMove_sim_frame (st : Session) (fr toSq : Int × Int) (meta : MoveOpt) :
    (applyMove st fr toSq meta true).capturedByWhite = st.capturedByWhite ∧
    (applyMove st fr toSq meta true).capturedByBlack = st.capturedByBlack ∧
    (applyMove st fr toSq meta true).movesLog = st.movesLog := by
  unfold applyMove
  cases hp : getSq st.board fr.1 fr.2 with
  | none => exact ⟨rfl, rfl, rfl⟩
  | some piece =>
    cases ht : getSq st.board toSq.1 toSq.2 <;>
      cases hep : meta.ep <;>
        exact ⟨rfl, rfl, rfl⟩

/-- The `snapshot()` / `restoreSnapshot(snap)` pair around a simulated
`applyMove` restores the session exactly (app.js lines 206-209). -/
theorem restore_apply (s : Session) (fr toSq : Int × Int) (meta : MoveOpt) :
    restoreSnapshot (applyMove s fr toSq meta true) (snapshot s) = s := by
  unfold restoreSnapshot snapshot applyMove
  cases hp : getSq s.board fr.1 fr.2 with
  | none => rfl
  | some piece => rfl

/-- The simulate-filter loop of `genLegal` computes a plain filter of the
pseudo moves and hands back the session it started from. -/
theorem genLegalLoop_eq (r c : Int) (clr : Color) (ms : List MoveOpt) (s : Session) :
    genLegalLoop r c clr ms s =
      (ms.filter fun m => !inCheck (applyMove s (r, c) (m.r, m.c) m true) clr, s) := by
  induction ms with
  | nil => rfl
  | cons m ms ih =>
    unfold genLegalLoop
    dsimp only
    rw [restore_apply, ih, List.filter_cons]

theorem genLegal_eq_filter (st : Session) (r c : Int) (p : Piece)
    (hp : getSq st.board r c = some p) :
    genLegal st r c = (genPseudo st r c false).filter
      fun m => !inCheck (applyMove st (r, c) (m.r, m.c) m true) p.c := by
  unfold genLegal genLegalS
  rw [hp]
  dsimp only
  rw [genLegalLoop_eq]

/-- C1: every move kept by the legality filter `genLegal` passes the
king-safety probe: applying it in simulation mode leaves the moving
piece's color not in check. -/
theorem c1_legal_moves_safe (st : Session) (r c : Int) (p : Piece) (m : MoveOpt)
    (hp : getSq st.board r c = some p) (hm : m ∈ genLegal st r c) :
    inCheck (applyMove st (r, c) (m.r, m.c) m true) p.c = false := by
  rw [genLegal_eq_filter st r c p hp] at hm
  have h := List.of_mem_filter hm
  simpa using h

theorem c1_legal_moves_safe_witness :
    inCheck (applyMove initSession (6, 4) (5, 4) { r := 5, c := 4 } true) Color.w = false :=
  c1_legal_moves_safe initSession 6 4 { t := .P, c := .w, moved := false }
    { r := 5, c := 4 } (by decide) (by decide)

/-- C8: computing the legal moves of any square leaves the whole session
unchanged: each probe's simulated `applyMove` is reversed by
`restoreSnapshot`, and simulation mode touches no capture bin and no log,
so board, turn, en-passant target and both bins keep their values. -/
theorem c8_genLegal_frame (st : Session) (r c : Int) :
    (genLegalS st r c).2 = st := by
  unfold genLegalS
  cases hp : getSq st.board r c with
  | none => rfl
  | some p =>
    dsimp only
    rw [genLegalLoop_eq]

/-- The session after committing f2-f3, e7-e5, g2-g4, Qd8-h4 through the
click interface: each move is a selection click followed by a
destination click. -/
def mateState : Session :=
  clickSquare (clickSquare (clickSquare (clickSquare (clickSquare (clickSquare (clickSquare (clickSquare
    initSession 6 5) 5 5) 1 4) 3 4) 6 6) 4 6) 0 3) 4 7

/-- C4: after the fool's mate sequence f2-f3, e7-e5, g2-g4, Qd8-h4 the
status of White is checkmate. -/
theorem c4_fools_mate : gameStatus mateState Color.w = Status.checkmate := by decide

/-- C9: with no king of the given color on the board, `inCheck` returns
false rather than failing, so `gameStatus` can never report checkmate;
with no legal move either, the position is classified stalemate. -/
theorem c9_kingless_no_checkmate (st : Session) (clr : Color)
    (hk : kingPos st clr = none) :
    inCheck st clr = false ∧
    gameStatus st clr ≠ Status.checkmate ∧
    (anyLegalMove st clr = false → gameStatus st clr = Status.stalemate) := by
  have hic : inCheck st clr = false := by
    unfold inCheck
    rw [hk]
  refine ⟨hic, ?_, ?_⟩
  · unfold gameStatus
    rw [hic]
    split
    · simp
    · simp
  · intro ha
    unfold gameStatus
    rw [ha, hic]
    simp

/-- An entirely empty board: no White king, no White piece at all. -/
def kinglessSession : Session :=
  { board := emptyBoard, turn := .w, selected := none, legal := [],
    lastDouble := none, capturedByWhite := [], capturedByBlack := [],
    movesLog := [], gameOver := false, history := [] }

theorem c9_kingless_no_checkmate_witness :
    inCheck kinglessSession Color.w = false ∧
    gameStatus kinglessSession Color.w ≠ Status.checkmate ∧
    (anyLegalMove kinglessSession Color.w = false →
      gameStatus kinglessSession Color.w = Status.stalemate) :=
  c9_kingless_no_checkmate kinglessSession Color.w (by decide)

/-- C2: a committed move (snapshot push + `applyMove` + turn toggle)
followed by one `undo()` restores board, turn, en-passant target,
capture bins, and the history stack to their pre-move values; moreover
`undo` always pops exactly one entry (draining to empty over repeated
calls) and is a no-op on an empty history. -/
theorem c2_undo_roundtrip (st : Session) (sel : Int × Int) (r c : Int) (mv : MoveOpt)
    (hgo : st.gameOver = false)
    (hsel : st.selected = some sel)
    (hcell : (getSq st.board r c).any (fun q => q.c == st.turn) = false)
    (hfind : st.legal.find? (fun m => m.r == r && m.c == c) = some mv) :
    ((undo (clickSquare st r c)).board = st.board ∧
     (undo (clickSquare st r c)).turn = st.turn ∧
     (undo (clickSquare st r c)).lastDouble = st.lastDouble ∧
     (undo (clickSquare st r c)).capturedByWhite = st.capturedByWhite ∧
     (undo (clickSquare st r c)).capturedByBlack = st.capturedByBlack ∧
     (undo (clickSquare st r c)).history = st.history) ∧
    (∀ s : Session, (undo s).history = s.history.tail) ∧
    (∀ s : Session, s.history = [] → undo s = s) := by
  have hclick : clickSquare st r c = commitMove st sel r c mv := by
    unfold clickSquare
    rw [hsel]
    simp [hgo, hcell, hfind]
  have hh : (commitMove st sel r c mv).history = snapshot st :: st.history := by
    unfold commitMove render
    dsimp only
    rw [(applyMove_frame { st with history := snapshot st :: st.history } sel (r, c) mv false).2.2.2.2]
  refine ⟨?_, ?_, ?_⟩
  · rw [hclick]
    unfold undo
    rw [hh]
    exact ⟨rfl, rfl, rfl, rfl, rfl, rfl⟩
  · intro s
    unfold undo
    cases hs : s.history with
    | nil => simp [hs]
    | cons last rest => rfl
  · intro s h
    unfold undo
    rw [h]

/-- The session after selecting the e2 pawn on the initial position. -/
def selectedE2 : Session := clickSquare initSession 6 4

theorem c2_undo_roundtrip_witness :
    ((undo (clickSquare selectedE2 4 4)).board = selectedE2.board ∧
     (undo (clickSquare selectedE2 4 4)).turn = selectedE2.turn ∧
     (undo (clickSquare selectedE2 4 4)).lastDouble = selectedE2.lastDouble ∧
     (undo (clickSquare selectedE2 4 4)).capturedByWhite = selectedE2.capturedByWhite ∧
     (undo (clickSquare selectedE2 4 4)).capturedByBlack = selectedE2.capturedByBlack ∧
     (undo (clickSquare selectedE2 4 4)).history = selectedE2.history) ∧
    (∀ s : Session, (undo s).history = s.history.tail) ∧
    (∀ s : Session, s.history = [] → undo s = s) :=
  c2_undo_roundtrip selectedE2 (6, 4) 4 4 { r := 4, c := 4, double := true }
    (by decide) (by decide) (by decide) (by decide)

/-- C7: a destination click that is not in the computed legal-move set of
the selected square is rejected: board, turn, capture bins, en-passant
target and history are unchanged, and the only effect is clearing the
selection. -/
theorem c7_illegal_click_rejected (st : Session) (sel : Int × Int) (r c : Int)
    (hgo : st.gameOver = false)
    (hsel : st.selected = some sel)
    (hcell : (getSq st.board r c).any (fun q => q.c == st.turn) = false)
    (hfind : st.legal.find? (fun m => m.r == r && m.c == c) = none) :
    (clickSquare st r c).board = st.board ∧
    (clickSquare st r c).turn = st.turn ∧
    (clickSquare st r c).capturedByWhite = st.capturedByWhite ∧
    (clickSquare st r c).capturedByBlack = st.capturedByBlack ∧
    (clickSquare st r c).lastDouble = st.lastDouble ∧
    (clickSquare st r c).history = st.history ∧
    (clickSquare st r c).selected = none ∧
    (clickSquare st r c).legal = [] := by
  have hclick : clickSquare st r c = render { st with selected := none, legal := [] } := by
    unfold clickSquare
    rw [hsel]
    simp [hgo, hcell, hfind]
  rw [hclick]
  exact ⟨rfl, rfl, rfl, rfl, rfl, rfl, rfl, rfl⟩

theorem c7_illegal_click_rejected_witness :
    (clickSquare selectedE2 4 0).board = selectedE2.board ∧
    (clickSquare selectedE2 4 0).turn = selectedE2.turn ∧
    (clickSquare selectedE2 4 0).capturedByWhite = selectedE2.capturedByWhite ∧
    (clickSquare selectedE2 4 0).capturedByBlack = selectedE2.capturedByBlack ∧
    (clickSquare selectedE2 4 0).lastDouble = selectedE2.lastDouble ∧
    (clickSquare selectedE2 4 0).history = selectedE2.history ∧
    (clickSquare selectedE2 4 0).selected = none ∧
    (clickSquare selectedE2 4 0).legal = [] :=
  c7_illegal_click_rejected selectedE2 (6, 4) 4 0
    (by decide) (by decide) (by decide) (by decide)

/-- Ray moves never carry the `double`, `ep` or `castle` markers. -/
theorem rayFrom_tags (bd : Board) (clr : Color) :
    ∀ (fuel : Nat) (rr cc dr dc : Int) (m : MoveOpt),
      m ∈ rayFrom bd clr fuel rr cc dr dc →
      m.ep = false ∧ m.castle = none ∧ m.double = false := by
  intro fuel
  induction fuel with
  | zero =>
    intro rr cc dr dc m hm
    simp [rayFrom] at hm
  | succ n ih =>
    intro rr cc dr dc m hm
    unfold rayFrom at hm
    split at hm
    · split at hm
      · split at hm
        · rw [List.mem_singleton] at hm
          subst hm
          exact ⟨rfl, rfl, rfl⟩
        · simp at hm
      · rcases List.mem_cons.mp hm with h | h
        · subst h
          exact ⟨rfl, rfl, rfl⟩
        · exact ih _ _ _ _ _ h
    · simp at hm

theorem rayMoves_tags (bd : Board) (clr : Color) (r c : Int) (dirs : List (Int × Int))
    (m : MoveOpt) (hm : m ∈ rayMoves bd clr r c dirs) :
    m.ep = false ∧ m.castle = none ∧ m.double = false := by
  unfold rayMoves at hm
  rw [List.mem_flatMap] at hm
  obtain ⟨d, -, hm⟩ := hm
  exact rayFrom_tags bd clr _ _ _ _ _ m hm

theorem knightMoves_tags (bd : Board) (r c : Int) (clr : Color) (m : MoveOpt)
    (hm : m ∈ knightMoves bd r c clr) :
    m.ep = false ∧ m.castle = none ∧ m.double = false := by
  unfold knightMoves at hm
  rw [List.mem_flatMap] at hm
  obtain ⟨d, -, hm⟩ := hm
  dsimp only at hm
  split at hm
  · rw [List.mem_singleton] at hm
    subst hm
    exact ⟨rfl, rfl, rfl⟩
  · simp at hm

theorem kingRingMoves_tags (bd : Board) (r c : Int) (clr : Color) (m : MoveOpt)
    (hm : m ∈ kingRingMoves bd r c clr) :
    m.ep = false ∧ m.castle = none ∧ m.double = false := by
  unfold kingRingMoves at hm
  rw [List.mem_flatMap] at hm
  obtain ⟨d, -, hm⟩ := hm
  dsimp only at hm
  split at hm
  · rw [List.mem_singleton] at hm
    subst hm
    exact ⟨rfl, rfl, rfl⟩
  · simp at hm

/-- Pawn moves never castle, and an `ep`-marked pawn move exists only
when the `lastDouble` window is set. -/
theorem pawnMoves_tags (bd : Board) (ld : Option LD) (r c : Int) (clr : Color) (fa : Bool)
    (m : MoveOpt) (hm : m ∈ pawnMoves bd ld r c clr fa) :
    m.castle = none ∧ (ld = none → m.ep = false) := by
  cases ld with
  | none =>
    unfold pawnMoves at hm
    dsimp only at hm
    split_ifs at hm <;>
      simp only [List.mem_append, List.mem_flatMap, List.mem_cons, List.mem_singleton,
        List.not_mem_nil, or_false, false_or] at hm <;>
      aesop
  | some L =>
    unfold pawnMoves at hm
    dsimp only at hm
    split_ifs at hm <;>
      simp only [List.mem_append, List.mem_flatMap, List.mem_cons, List.mem_singleton,
        List.not_mem_nil, or_false, false_or] at hm <;>
      aesop

/-- With no en-passant window set, `genPseudo` never emits an `ep` move. -/
theorem genPseudo_ep_window (s : Session) (r c : Int) (fa : Bool) (m : MoveOpt)
    (hld : s.lastDouble = none) (hm : m ∈ genPseudo s r c fa) :
    m.ep = false := by
  unfold genPseudo at hm
  cases hq : getSq s.board r c with
  | none =>
    rw [hq] at hm
    simp at hm
  | some p =>
    rw [hq] at hm
    dsimp only at hm
    cases hp : p.t <;> rw [hp] at hm
    · rcases List.mem_append.mp hm with h | h
      · exact (kingRingMoves_tags _ _ _ _ m h).1
      · split at h
        · rcases List.mem_append.mp h with h2 | h2 <;>
          · split at h2
            · rw [List.mem_singleton] at h2
              subst h2
              rfl
            · simp at h2
        · simp at h
    · exact (rayMoves_tags _ _ _ _ _ m hm).1
    · exact (rayMoves_tags _ _ _ _ _ m hm).1
    · exact (rayMoves_tags _ _ _ _ _ m hm).1
    · exact (knightMoves_tags _ _ _ _ m hm).1
    · rw [hld] at hm
      exact (pawnMoves_tags _ _ _ _ _ _ m hm).2 rfl

/-- C5: applying a double pawn push sets `lastDouble` to the landing
square with the pawn's direction, applying any other move clears it
unconditionally, and while `lastDouble` is null no en-passant capture is
ever generated — so the capture exists only on the ply immediately
following a double push. -/
theorem c5_en_passant_window (st : Session) (fr toSq : Int × Int) (meta : MoveOpt)
    (p : Piece) (sim : Bool) (hp : getSq st.board fr.1 fr.2 = some p) :
    ((p.t = .P ∧ meta.double = true) →
      (applyMove st fr toSq meta sim).lastDouble =
        some { r := toSq.1, c := toSq.2, dir := if p.c = .w then -1 else 1 }) ∧
    (¬(p.t = .P ∧ meta.double = true) →
      (applyMove st fr toSq meta sim).lastDouble = none) ∧
    (∀ s : Session, s.lastDouble = none →
      ∀ r c fa m, m ∈ genPseudo s r c fa → m.ep = false) := by
  have hld : (applyMove st fr toSq meta sim).lastDouble =
      (if p.t == PieceType.P && meta.double then
        some { r := toSq.1, c := toSq.2, dir := if p.c = .w then -1 else 1 }
      else (none : Option LD)) := by
    unfold applyMove
    rw [hp]
  refine ⟨?_, ?_, ?_⟩
  · intro h
    rw [hld, h.1, h.2]
    simp
  · intro h
    rw [hld]
    have hcond : ¬(p.t == PieceType.P && meta.double) = true := by
      simp only [Bool.and_eq_true, beq_iff_eq]
      exact fun hc => h ⟨hc.1, hc.2⟩
    rw [if_neg hcond]
  · intro s h r c fa m hm
    exact genPseudo_ep_window s r c fa m h hm

theorem c5_en_passant_window_witness :
    ((PieceType.P = PieceType.P ∧ true = true) →
      (applyMove initSession (6, 4) (4, 4) { r := 4, c := 4, double := true } false).lastDouble =
        some { r := 4, c := 4, dir := -1 }) ∧
    (¬(PieceType.P = PieceType.P ∧ true = true) →
      (applyMove initSession (6, 4) (4, 4) { r := 4, c := 4, double := true } false).lastDouble = none) ∧
    (∀ s : Session, s.lastDouble = none →
      ∀ r c fa m, m ∈ genPseudo s r c fa → m.ep = false) := by
  have h := c5_en_passant_window initSession (6, 4) (4, 4)
    { r := 4, c := 4, double := true } { t := .P, c := .w, moved := false } false (by decide)
  exact h

theorem pathAttacked_succ (st : Session) (oc : Color) (row : Int) (fuel : Nat)
    (cc stop step : Int) :
    pathAttacked st oc row (fuel+1) cc stop step =
      if cc = stop then false
      else attacksSquare st oc row cc || pathAttacked st oc row fuel (cc+step) stop step := rfl

theorem pathAttacked_kingside (st : Session) (oc : Color) (row : Int) :
    pathAttacked st oc row 8 4 6 1 =
      (attacksSquare st oc row 4 || attacksSquare st oc row 5) := by
  have h1 : pathAttacked st oc row 6 6 6 1 = false := by
    rw [show (6:Nat) = 5+1 from rfl, pathAttacked_succ, if_pos rfl]
  have h2 : pathAttacked st oc row 7 5 6 1 = (attacksSquare st oc row 5 || false) := by
    rw [show (7:Nat) = 6+1 from rfl, pathAttacked_succ, if_neg (by norm_num)]
    norm_num [h1]
  rw [show (8:Nat) = 7+1 from rfl, pathAttacked_succ, if_neg (by norm_num)]
  norm_num [h2]

theorem pathAttacked_queenside (st : Session) (oc : Color) (row : Int) :
    pathAttacked st oc row 8 4 2 (-1) =
      (attacksSquare st oc row 4 || attacksSquare st oc row 3) := by
  have h1 : pathAttacked st oc row 6 2 2 (-1) = false := by
    rw [show (6:Nat) = 5+1 from rfl, pathAttacked_succ, if_pos rfl]
  have h2 : pathAttacked st oc row 7 3 2 (-1) = (attacksSquare st oc row 3 || false) := by
    rw [show (7:Nat) = 6+1 from rfl, pathAttacked_succ, if_neg (by norm_num)]
    norm_num [h1]
  rw [show (8:Nat) = 7+1 from rfl, pathAttacked_succ, if_neg (by norm_num)]
  norm_num [h2]

/-- The attack loop of `canCastle` visits exactly the start square `kC`
and the crossed square `kC+step` — not the landing square. -/
theorem pathAttacked_elim (st : Session) (oc : Color) (row : Int) (side : Side)
    (h : pathAttacked st oc row 8 4 (4 + 2*castleStep side) (castleStep side) = false) :
    attacksSquare st oc row 4 = false ∧
    attacksSquare st oc row (4 + castleStep side) = false := by
  cases side with
  | k =>
    have hs : castleStep Side.k = 1 := rfl
    rw [hs] at h ⊢
    norm_num at h ⊢
    rw [pathAttacked_kingside] at h
    simpa using h
  | q =>
    have hs : castleStep Side.q = -1 := rfl
    rw [hs] at h ⊢
    norm_num at h ⊢
    rw [pathAttacked_queenside] at h
    simpa using h

/-- A true `canCastle` certifies every condition the source tests: an
unmoved K-typed piece on the home king square, an unmoved R-typed piece
on the corner, no blocker strictly between, and no attack on the king's
start square nor on the crossed square. -/
theorem canCastle_true_elim (st : Session) (clr : Color) (side : Side)
    (h : canCastle st clr side = true) :
    (∃ king, getSq st.board (homeRow clr) 4 = some king ∧
      king.t = .K ∧ king.moved = false) ∧
    (∃ rook, getSq st.board (homeRow clr) (rookCol side) = some rook ∧
      rook.t = .R ∧ rook.moved = false) ∧
    blockedBetween st.board (homeRow clr) 8 (4 + castleStep side) (rookCol side)
      (castleStep side) = false ∧
    attacksSquare st (other clr) (homeRow clr) 4 = false ∧
    attacksSquare st (other clr) (homeRow clr) (4 + castleStep side) = false := by
  unfold canCastle at h
  dsimp only at h
  cases hr : getSq st.board (homeRow clr) (rookCol side) <;> rw [hr] at h
  · simp at h
  · cases hk : getSq st.board (homeRow clr) 4 <;> rw [hk] at h
    · simp at h
    · rename_i rook king
      dsimp only at h
      by_cases h1 : (king.t != PieceType.K || rook.t != PieceType.R ||
          king.moved || rook.moved) = true
      · rw [if_pos h1] at h
        exact absurd h (by simp)
      · rw [if_neg h1] at h
        by_cases h2 : blockedBetween st.board (homeRow clr) 8 (4 + castleStep side)
            (rookCol side) (castleStep side) = true
        · rw [if_pos h2] at h
          exact absurd h (by simp)
        · rw [if_neg h2] at h
          by_cases h3 : pathAttacked st (other clr) (homeRow clr) 8 4
              (4 + 2*castleStep side) (castleStep side) = true
          · rw [if_pos h3] at h
            exact absurd h (by simp)
          · simp only [Bool.or_eq_true, bne_iff_ne, ne_eq, Bool.not_eq_true, not_or] at h1
            obtain ⟨⟨⟨hkt, hrt⟩, hkm⟩, hrm⟩ := h1
            push_neg at hkt hrt
            refine ⟨⟨king, rfl, hkt, hkm⟩, ⟨rook, rfl, hrt, hrm⟩, ?_, ?_⟩
            · exact Bool.of_not_eq_true h2
            · exact pathAttacked_elim st (other clr) (homeRow clr) side (Bool.of_not_eq_true h3)

/-- A castle-tagged move can only come from the king branch's castling
block, so its guards all held. -/
theorem genPseudo_castle_elim (st : Session) (r c : Int) (p : Piece) (m : MoveOpt)
    (side : Side) (hp : getSq st.board r c = some p) (hm : m ∈ genPseudo st r c false)
    (hc : m.castle = some side) :
    p.t = .K ∧ p.moved = false ∧ inCheck st p.c = false ∧
    canCastle st p.c side = true ∧
    m = { r := r, c := c + (if side = .k then 2 else -2), castle := some side } := by
  unfold genPseudo at hm
  rw [hp] at hm
  dsimp only at hm
  cases hpt : p.t with
  | K =>
    rw [hpt] at hm
    dsimp only at hm
    rcases List.mem_append.mp hm with h | h
    · exact absurd (kingRingMoves_tags _ _ _ _ m h).2.1 (by rw [hc]; simp)
    · split at h
      case isTrue hguard =>
        simp only [Bool.not_false, Bool.true_and, Bool.and_eq_true, Bool.not_eq_true'] at hguard
        rcases List.mem_append.mp h with h2 | h2
        · split at h2
          case isTrue hck =>
            rw [List.mem_singleton] at h2
            subst h2
            simp only [Option.some.injEq] at hc
            subst hc
            exact ⟨rfl, hguard.1, hguard.2, hck, by simp⟩
          case isFalse => simp at h2
        · split at h2
          case isTrue hcq =>
            rw [List.mem_singleton] at h2
            subst h2
            simp only [Option.some.injEq] at hc
            subst hc
            exact ⟨rfl, hguard.1, hguard.2, hcq, by simp [Int.sub_eq_add_neg]⟩
          case isFalse => simp at h2
      case isFalse => simp at h
  | Q =>
    rw [hpt] at hm
    dsimp only at hm
    exact absurd (rayMoves_tags _ _ _ _ _ m hm).2.1 (by rw [hc]; simp)
  | R =>
    rw [hpt] at hm
    dsimp only at hm
    exact absurd (rayMoves_tags _ _ _ _ _ m hm).2.1 (by rw [hc]; simp)
  | B =>
    rw [hpt] at hm
    dsimp only at hm
    exact absurd (rayMoves_tags _ _ _ _ _ m hm).2.1 (by rw [hc]; simp)
  | N =>
    rw [hpt] at hm
    dsimp only at hm
    exact absurd (knightMoves_tags _ _ _ _ m hm).2.1 (by rw [hc]; simp)
  | P =>
    rw [hpt] at hm
    dsimp only at hm
    exact absurd (pawnMoves_tags _ _ _ _ _ _ m hm).1 (by rw [hc]; simp)

/-- White king e1 and rook h1, unmoved, f1/g1 empty; a Black rook on g8
attacks the castling landing square g1 but neither e1 nor f1. -/
def c3Session : Session :=
  { board := setSq (setSq (setSq (setSq emptyBoard 7 4 (some { t := .K, c := .w, moved := false }))
      7 7 (some { t := .R, c := .w, moved := false }))
      0 6 (some { t := .R, c := .b, moved := false }))
      0 0 (some { t := .K, c := .b, moved := false }),
    turn := .w, selected := none, legal := [], lastDouble := none,
    capturedByWhite := [], capturedByBlack := [], movesLog := [],
    gameOver := false, history := [] }

/-- C3 counterexample: the pseudo-legal generator emits the kingside
castle even though the landing square g1 is attacked by the opposing
color — the attack loop of `canCastle` stops before the landing square. -/
theorem c3_counterexample :
    ({ r := 7, c := 6, castle := some Side.k } : MoveOpt) ∈ genPseudo c3Session 7 4 false ∧
    attacksSquare c3Session Color.b 7 6 = true := by decide

/-- C3 as amended: a castling move is generated only when `forAttack` is
false, the king is unmoved and not in check, the home corner holds an
unmoved rook (and the home king square an unmoved king), the squares
strictly between are empty, and the start square and the crossed square
are unattacked; the landing square is not tested by the generator (the
legality filter rejects it later). -/
theorem c3_castle_generation_conditions (st : Session) (r c : Int) (p : Piece)
    (m : MoveOpt) (side : Side) (hp : getSq st.board r c = some p)
    (hm : m ∈ genPseudo st r c false) (hc : m.castle = some side) :
    p.t = .K ∧ p.moved = false ∧ inCheck st p.c = false ∧
    canCastle st p.c side = true ∧
    (∃ king, getSq st.board (homeRow p.c) 4 = some king ∧
      king.t = .K ∧ king.moved = false) ∧
    (∃ rook, getSq st.board (homeRow p.c) (rookCol side) = some rook ∧
      rook.t = .R ∧ rook.moved = false) ∧
    blockedBetween st.board (homeRow p.c) 8 (4 + castleStep side) (rookCol side)
      (castleStep side) = false ∧
    attacksSquare st (other p.c) (homeRow p.c) 4 = false ∧
    attacksSquare st (other p.c) (homeRow p.c) (4 + castleStep side) = false := by
  obtain ⟨h1, h2, h3, h4, -⟩ := genPseudo_castle_elim st r c p m side hp hm hc
  obtain ⟨e1, e2, e3, e4, e5⟩ := canCastle_true_elim st p.c side h4
  exact ⟨h1, h2, h3, h4, e1, e2, e3, e4, e5⟩

theorem c3_castle_generation_conditions_witness :
    PieceType.K = PieceType.K ∧ false = false ∧ inCheck c3Session Color.w = false ∧
    canCastle c3Session Color.w Side.k = true ∧
    (∃ king, getSq c3Session.board (homeRow Color.w) 4 = some king ∧
      king.t = .K ∧ king.moved = false) ∧
    (∃ rook, getSq c3Session.board (homeRow Color.w) (rookCol Side.k) = some rook ∧
      rook.t = .R ∧ rook.moved = false) ∧
    blockedBetween c3Session.board (homeRow Color.w) 8 (4 + castleStep Side.k)
      (rookCol Side.k) (castleStep Side.k) = false ∧
    attacksSquare c3Session (other Color.w) (homeRow Color.w) 4 = false ∧
    attacksSquare c3Session (other Color.w) (homeRow Color.w) (4 + castleStep Side.k) = false :=
  c3_castle_generation_conditions c3Session 7 4 { t := .K, c := .w, moved := false }
    { r := 7, c := 6, castle := some Side.k } Side.k (by decide) (by decide) rfl

/-- The castling-rights state the source actually consults: either the
home king square does not hold an unmoved K-typed piece, or the corner
does not hold an unmoved R-typed piece.  Once true, `canCastle` can
never return true again. -/
def castleDead (bd : Board) (clr : Color) (side : Side) : Bool :=
  (match getSq bd (homeRow clr) 4 with
   | some p => p.t != PieceType.K || p.moved
   | none => true) ||
  (match getSq bd (homeRow clr) (rookCol side) with
   | some p => p.t != PieceType.R || p.moved
   | none => true)

/-- `bd'` never exhibits an unmoved piece that `bd` did not already have
on the same square. -/
def preservesUnmoved (bd bd' : Board) : Prop :=
  ∀ (rn cn : Nat) (q : Piece), bd' rn cn = some q → q.moved = false → bd rn cn = some q

theorem preservesUnmoved_refl (bd : Board) : preservesUnmoved bd bd :=
  fun _ _ _ h _ => h

theorem preservesUnmoved_trans {a b c : Board}
    (h1 : preservesUnmoved a b) (h2 : preservesUnmoved b c) : preservesUnmoved a c :=
  fun rn cn q hq hm => h1 rn cn q (h2 rn cn q hq hm) hm

theorem preservesUnmoved_setSq (bd : Board) (r c : Nat) (v : Option Piece)
    (hv : ∀ q : Piece, v = some q → q.moved = true) :
    preservesUnmoved bd (setSq bd r c v) := by
  intro rn cn q hq hm
  unfold setSq at hq
  split at hq
  · exact absurd hm (by rw [hv q hq]; simp)
  · exact hq

/-- Every piece value `applyBoard` ever writes is either absent or
carries `moved := true`. -/
def movedAtProp (bd : Board) (rn cn : Nat) : Prop :=
  ∀ q : Piece, bd rn cn = some q → q.moved = true

theorem movedAtProp_setSq (bd : Board) (r c : Nat) (v : Option Piece) (rn cn : Nat)
    (h : movedAtProp bd rn cn) (hv : ∀ q : Piece, v = some q → q.moved = true) :
    movedAtProp (setSq bd r c v) rn cn := by
  intro q hq
  unfold setSq at hq
  split at hq
  · exact hv q hq
  · exact h q hq

theorem applyBoard_preserves (bd : Board) (fr toSq : Int × Int) (meta : MoveOpt)
    (piece : Piece) : preservesUnmoved bd (applyBoard bd fr toSq meta piece) := by
  unfold applyBoard
  dsimp only
  set bd0 := if meta.ep = true then setSq bd fr.1.toNat toSq.2.toNat none else bd with hbd0
  set bd1 := setSq bd0 toSq.1.toNat toSq.2.toNat (some { piece with moved := true }) with hbd1
  set bd2 := setSq bd1 fr.1.toNat fr.2.toNat none with hbd2
  have h0 : preservesUnmoved bd bd0 := by
    rw [hbd0]
    split
    · exact preservesUnmoved_setSq _ _ _ _ (fun q h => nomatch h)
    · exact preservesUnmoved_refl _
  have h1 : preservesUnmoved bd bd1 :=
    preservesUnmoved_trans h0
      (preservesUnmoved_setSq _ _ _ _ (fun q h => by cases h; rfl))
  have h2 : preservesUnmoved bd bd2 :=
    preservesUnmoved_trans h1 (preservesUnmoved_setSq _ _ _ _ (fun q h => nomatch h))
  have m1 : movedAtProp bd1 toSq.1.toNat toSq.2.toNat := by
    intro q hq
    rw [hbd1] at hq
    unfold setSq at hq
    rw [if_pos ⟨rfl, rfl⟩] at hq
    cases hq
    rfl
  have m2 : movedAtProp bd2 toSq.1.toNat toSq.2.toNat :=
    movedAtProp_setSq _ _ _ _ _ _ m1 (fun q h => nomatch h)
  have hmap : ∀ (o : Option Piece) (q : Piece),
      (o.map fun (x : Piece) => { x with moved := true }) = some q → q.moved = true := by
    intro o q h
    obtain ⟨a, -, rfl⟩ := Option.map_eq_some'.mp h
    rfl
  cases hc : meta.castle with
  | none =>
    dsimp only
    have h3 : preservesUnmoved bd bd2 := h2
    have m3 : movedAtProp bd2 toSq.1.toNat toSq.2.toNat := m2
    cases hq : bd2 toSq.1.toNat toSq.2.toNat with
    | none => exact h3
    | some q =>
      dsimp only
      split
      · exact preservesUnmoved_trans h3
          (preservesUnmoved_setSq _ _ _ _ (fun q2 h => by cases h; exact m3 q hq))
      · exact h3
  | some side =>
   cases side with
   | k =>
    dsimp only
    have h3 : preservesUnmoved bd
        (setSq (setSq bd2 toSq.1.toNat 5 ((bd2 toSq.1.toNat 7).map fun (x : Piece) => { x with moved := true }))
          toSq.1.toNat 7 none) :=
      preservesUnmoved_trans
        (preservesUnmoved_trans h2 (preservesUnmoved_setSq _ _ _ _ (hmap _)))
        (preservesUnmoved_setSq _ _ _ _ (fun q h => nomatch h))
    have m3 : movedAtProp
        (setSq (setSq bd2 toSq.1.toNat 5 ((bd2 toSq.1.toNat 7).map fun (x : Piece) => { x with moved := true }))
          toSq.1.toNat 7 none) toSq.1.toNat toSq.2.toNat :=
      movedAtProp_setSq _ _ _ _ _ _
        (movedAtProp_setSq _ _ _ _ _ _ m2 (hmap _)) (fun q h => nomatch h)
    cases hq : (setSq (setSq bd2 toSq.1.toNat 5 ((bd2 toSq.1.toNat 7).map fun (x : Piece) => { x with moved := true }))
        toSq.1.toNat 7 none) toSq.1.toNat toSq.2.toNat with
    | none => exact h3
    | some q =>
      dsimp only
      split
      · exact preservesUnmoved_trans h3
          (preservesUnmoved_setSq _ _ _ _ (fun q2 h => by cases h; exact m3 q hq))
      · exact h3
   | q =>
    dsimp only
    have h3 : preservesUnmoved bd
        (setSq (setSq bd2 toSq.1.toNat 3 ((bd2 toSq.1.toNat 0).map fun (x : Piece) => { x with moved := true }))
          toSq.1.toNat 0 none) :=
      preservesUnmoved_trans
        (preservesUnmoved_trans h2 (preservesUnmoved_setSq _ _ _ _ (hmap _)))
        (preservesUnmoved_setSq _ _ _ _ (fun q h => nomatch h))
    have m3 : movedAtProp
        (setSq (setSq bd2 toSq.1.toNat 3 ((bd2 toSq.1.toNat 0).map fun (x : Piece) => { x with moved := true }))
          toSq.1.toNat 0 none) toSq.1.toNat toSq.2.toNat :=
      movedAtProp_setSq _ _ _ _ _ _
        (movedAtProp_setSq _ _ _ _ _ _ m2 (hmap _)) (fun q h => nomatch h)
    cases hq : (setSq (setSq bd2 toSq.1.toNat 3 ((bd2 toSq.1.toNat 0).map fun (x : Piece) => { x with moved := true}))
        toSq.1.toNat 0 none) toSq.1.toNat toSq.2.toNat with
    | none => exact h3
    | some q =>
      dsimp only
      split
      · exact preservesUnmoved_trans h3
          (preservesUnmoved_setSq _ _ _ _ (fun q2 h => by cases h; exact m3 q hq))
      · exact h3

theorem applyMove_preserves (st : Session) (fr toSq : Int × Int) (meta : MoveOpt)
    (sim : Bool) : preservesUnmoved st.board (applyMove st fr toSq meta sim).board := by
  unfold applyMove
  cases hp : getSq st.board fr.1 fr.2 with
  | none => exact preservesUnmoved_refl _
  | some piece => exact applyBoard_preserves st.board fr toSq meta piece

theorem slotDead_mono (bd bd' : Board) (hpres : preservesUnmoved bd bd')
    (row col : Int) (t0 : PieceType)
    (h : (match getSq bd row col with
          | some p => p.t != t0 || p.moved
          | none => true) = true) :
    (match getSq bd' row col with
     | some p => p.t != t0 || p.moved
     | none => true) = true := by
  have hg : ∀ p : Piece, getSq bd' row col = some p → p.moved = false →
      getSq bd row col = some p := by
    intro p hp hm
    unfold getSq at hp ⊢
    by_cases hb : inBoundsB row col = true
    · rw [if_pos hb] at hp ⊢
      exact hpres _ _ _ hp hm
    · rw [if_neg hb] at hp
      exact absurd hp (by simp)
  cases hq : getSq bd' row col with
  | none => rfl
  | some p =>
    by_cases hm : p.moved = true
    · simp [hm]
    · have hmf : p.moved = false := Bool.of_not_eq_true hm
      rw [hg p hq hmf] at h
      simp only [hmf, Bool.or_false] at h
      simp [h, hmf]

theorem castleDead_mono (bd bd' : Board) (hpres : preservesUnmoved bd bd')
    (clr : Color) (side : Side) (h : castleDead bd clr side = true) :
    castleDead bd' clr side = true := by
  unfold castleDead at h ⊢
  simp only [Bool.or_eq_true] at h ⊢
  rcases h with h | h
  · exact Or.inl (slotDead_mono bd bd' hpres _ _ _ h)
  · exact Or.inr (slotDead_mono bd bd' hpres _ _ _ h)

theorem castleDead_canCastle (st : Session) (clr : Color) (side : Side)
    (h : castleDead st.board clr side = true) : canCastle st clr side = false := by
  unfold castleDead at h
  unfold canCastle
  dsimp only
  cases hr : getSq st.board (homeRow clr) (rookCol side) with
  | none =>
    cases hk : getSq st.board (homeRow clr) 4 with
    | none => rfl
    | some king => rfl
  | some rook =>
    cases hk : getSq st.board (homeRow clr) 4 with
    | none => rfl
    | some king =>
      rw [hr, hk] at h
      dsimp only at h
      have hguard : (king.t != PieceType.K || rook.t != PieceType.R ||
          king.moved || rook.moved) = true := by
        simp only [Bool.or_eq_true] at h ⊢
        tauto
      dsimp only
      rw [if_pos hguard]

/-- A committed move request: from square, to square, move descriptor and
the simulate flag that `applyMove` receives. -/
abbrev MoveReq := (Int × Int) × (Int × Int) × MoveOpt × Bool

def applyMoveSeq (st : Session) : List MoveReq → Session
  | [] => st
  | mq :: rest => applyMoveSeq (applyMove st mq.1 mq.2.1 mq.2.2.1 mq.2.2.2) rest

/-- C6: once the home king square no longer holds an unmoved king or the
corner no longer holds an unmoved rook (in particular once the king or
rook has its moved flag set — moving back cannot clear it, since every
piece `applyMove` writes carries `moved := true`), `canCastle` for that
color and side returns false after every further sequence of applied
moves. -/
theorem c6_castling_rights_permanent (st : Session) (ms : List MoveReq)
    (clr : Color) (side : Side) (h : castleDead st.board clr side = true) :
    canCastle (applyMoveSeq st ms) clr side = false ∧
    castleDead (applyMoveSeq st ms).board clr side = true := by
  induction ms generalizing st with
  | nil => exact ⟨castleDead_canCastle st clr side h, h⟩
  | cons mq rest ih =>
    exact ih (applyMove st mq.1 mq.2.1 mq.2.2.1 mq.2.2.2)
      (castleDead_mono _ _ (applyMove_preserves st mq.1 mq.2.1 mq.2.2.1 mq.2.2.2) clr side h)

/-- White king on e1 with its moved flag already true, unmoved rook h1. -/
def c6Session : Session :=
  { board := setSq (setSq (setSq emptyBoard 7 4 (some { t := .K, c := .w, moved := true }))
      7 7 (some { t := .R, c := .w, moved := false }))
      0 0 (some { t := .K, c := .b, moved := false }),
    turn := .w, selected := none, legal := [], lastDouble := none,
    capturedByWhite := [], capturedByBlack := [], movesLog := [],
    gameOver := false, history := [] }

theorem c6_castling_rights_permanent_witness :
    canCastle (applyMoveSeq c6Session [((7, 4), (6, 4), { r := 6, c := 4 }, false)])
      Color.w Side.k = false ∧
    castleDead (applyMoveSeq c6Session [((7, 4), (6, 4), { r := 6, c := 4 }, false)]).board
      Color.w Side.k = true :=
  c6_castling_rights_permanent c6Session [((7, 4), (6, 4), { r := 6, c := 4 }, false)]
    Color.w Side.k (by decide)

theorem blockedBetween_succ (bd : Board) (row : Int) (fuel : Nat) (cc stop step : Int) :
    blockedBetween bd row (fuel+1) cc stop step =
      if cc = stop then false
      else !emptySq bd row cc || blockedBetween bd row fuel (cc+step) stop step := rfl

theorem blockedBetween_kingside (bd : Board) (row : Int) :
    blockedBetween bd row 8 5 7 1 = (!emptySq bd row 5 || !emptySq bd row 6) := by
  have h1 : blockedBetween bd row 6 7 7 1 = false := by
    rw [show (6:Nat) = 5+1 from rfl, blockedBetween_succ, if_pos rfl]
  have h2 : blockedBetween bd row 7 6 7 1 = (!emptySq bd row 6 || false) := by
    rw [show (7:Nat) = 6+1 from rfl, blockedBetween_succ, if_neg (by norm_num)]
    norm_num [h1]
  rw [show (8:Nat) = 7+1 from rfl, blockedBetween_succ, if_neg (by norm_num)]
  norm_num [h2]

theorem blockedBetween_queenside (bd : Board) (row : Int) :
    blockedBetween bd row 8 3 0 (-1) =
      (!emptySq bd row 3 || (!emptySq bd row 2 || !emptySq bd row 1)) := by
  have h1 : blockedBetween bd row 5 0 0 (-1) = false := by
    rw [show (5:Nat) = 4+1 from rfl, blockedBetween_succ, if_pos rfl]
  have h2 : blockedBetween bd row 6 1 0 (-1) = (!emptySq bd row 1 || false) := by
    rw [show (6:Nat) = 5+1 from rfl, blockedBetween_succ, if_neg (by norm_num)]
    norm_num [h1]
  have h3 : blockedBetween bd row 7 2 0 (-1) =
      (!emptySq bd row 2 || (!emptySq bd row 1 || false)) := by
    rw [show (7:Nat) = 6+1 from rfl, blockedBetween_succ, if_neg (by norm_num)]
    norm_num [h2]
  rw [show (8:Nat) = 7+1 from rfl, blockedBetween_succ, if_neg (by norm_num)]
  norm_num [h3]

theorem rayFrom_cons (bd : Board) (clr : Color) (fuel : Nat) (rr cc dr dc : Int)
    (hb : inBoundsB rr cc = true) (he : getSq bd rr cc = none) :
    rayFrom bd clr (fuel+1) rr cc dr dc =
      { r := rr, c := cc } :: rayFrom bd clr fuel (rr+dr) (cc+dc) dr dc := by
  conv_lhs => unfold rayFrom
  rw [if_pos hb, he]

theorem getSq_of_empty (bd : Board) (r c : Int) (h : emptySq bd r c = true) :
    getSq bd r c = none := by
  unfold emptySq at h
  rw [Bool.and_eq_true] at h
  exact Option.isNone_iff_eq_none.mp h.2

/-- A single witnessing piece and pseudo attack move make `attacksSquare`
true. -/
theorem attacksSquare_of (st : Session) (clr : Color) (r c : Int) (s : Int × Int)
    (hs : s ∈ squares) (p : Piece) (hp : getSq st.board s.1 s.2 = some p)
    (hpc : p.c = clr) (m : MoveOpt) (hm : m ∈ genPseudoA st s.1 s.2)
    (hmr : m.r = r) (hmc : m.c = c) :
    attacksSquare st clr r c = true := by
  unfold attacksSquare
  rw [List.any_eq_true]
  refine ⟨s, hs, ?_⟩
  rw [hp]
  dsimp only
  rw [Bool.and_eq_true]
  refine ⟨by simp [hpc], ?_⟩
  rw [List.any_eq_true]
  exact ⟨m, hm, by simp [hmr, hmc]⟩

theorem inBoundsB_of (rx cx : Int) (h1 : 0 ≤ rx) (h2 : rx < 8) (h3 : 0 ≤ cx) (h4 : cx < 8) :
    inBoundsB rx cx = true := by
  unfold inBoundsB
  simp [h1, h2, h3, h4]

/-- C10 as amended: `canCastle` tests only the corner piece's type and
moved flag, never its color; but an opposing rook on the corner always
attacks the crossed square once the between squares are empty, so the
transit-attack loop rejects it and `canCastle` is false for every board
with an opposing rook on the corner. -/
theorem c10_opposing_rook_never_castles (st : Session) (clr : Color) (side : Side)
    (rk : Piece) (hr : getSq st.board (homeRow clr) (rookCol side) = some rk)
    (ht : rk.t = .R) (hcol : rk.c ≠ clr) :
    canCastle st clr side = false := by
  have hrow : homeRow clr = 7 ∨ homeRow clr = 0 := by
    cases clr <;> simp [homeRow]
  have hrow0 : (0:Int) ≤ homeRow clr := by rcases hrow with h | h <;> simp [h]
  have hrow8 : homeRow clr < 8 := by rcases hrow with h | h <;> simp [h]
  have hoc : rk.c = other clr := by
    cases clr with
    | w =>
      cases hcc : rk.c with
      | w => exact absurd hcc hcol
      | b => rfl
    | b =>
      cases hcc : rk.c with
      | w => rfl
      | b => exact absurd hcc hcol
  have hgen : genPseudoA st (homeRow clr) (rookCol side) =
      rayMoves st.board rk.c (homeRow clr) (rookCol side) rookDirs := by
    unfold genPseudoA
    rw [hr]
    dsimp only
    rw [ht]
  unfold canCastle
  dsimp only
  rw [hr]
  cases hk : getSq st.board (homeRow clr) 4 with
  | none => rfl
  | some king =>
    dsimp only
    by_cases hg : (king.t != PieceType.K || rk.t != PieceType.R ||
        king.moved || rk.moved) = true
    · rw [if_pos hg]
    · rw [if_neg hg]
      by_cases hb : blockedBetween st.board (homeRow clr) 8 (4 + castleStep side)
          (rookCol side) (castleStep side) = true
      · rw [if_pos hb]
      · rw [if_neg hb]
        have hbf : blockedBetween st.board (homeRow clr) 8 (4 + castleStep side)
            (rookCol side) (castleStep side) = false := Bool.of_not_eq_true hb
        cases side with
        | k =>
          have hb5 : emptySq st.board (homeRow clr) 5 = true ∧
              emptySq st.board (homeRow clr) 6 = true := by
            have : blockedBetween st.board (homeRow clr) 8 5 7 1 = false := by
              rw [show ((4:Int) + castleStep Side.k) = 5 from by decide] at hbf
              exact hbf
            rw [blockedBetween_kingside] at this
            simpa using this
          have hmem : ({ r := homeRow clr, c := 5 } : MoveOpt) ∈
              genPseudoA st (homeRow clr) (rookCol Side.k) := by
            rw [hgen]
            unfold rayMoves
            rw [List.mem_flatMap]
            refine ⟨(0, -1), by decide, ?_⟩
            dsimp only
            rw [show homeRow clr + 0 = homeRow clr from by ring,
              show rookCol Side.k = (7:Int) from rfl, show ((7:Int) + -1) = 6 from by norm_num]
            rw [show (8:Nat) = 7+1 from rfl,
              rayFrom_cons _ _ _ _ _ _ _ (inBoundsB_of _ _ hrow0 hrow8 (by norm_num) (by norm_num))
                (getSq_of_empty _ _ _ hb5.2)]
            refine List.mem_cons_of_mem _ ?_
            rw [show homeRow clr + 0 = homeRow clr from by ring,
              show ((6:Int) + -1) = 5 from by norm_num]
            rw [show (7:Nat) = 6+1 from rfl,
              rayFrom_cons _ _ _ _ _ _ _ (inBoundsB_of _ _ hrow0 hrow8 (by norm_num) (by norm_num))
                (getSq_of_empty _ _ _ hb5.1)]
            exact List.mem_cons_self _ _
          have hatt : attacksSquare st (other clr) (homeRow clr) (4 + castleStep Side.k) = true := by
            rw [show ((4:Int) + castleStep Side.k) = 5 from by decide]
            exact attacksSquare_of st (other clr) (homeRow clr) 5 (homeRow clr, rookCol Side.k)
              (by rcases hrow with h | h <;> rw [h] <;> decide)
              rk hr hoc _ hmem rfl rfl
          have hpath : pathAttacked st (other clr) (homeRow clr) 8 4
              (4 + 2*castleStep Side.k) (castleStep Side.k) = true := by
            rw [show ((4:Int) + 2*castleStep Side.k) = 6 from by decide,
              show castleStep Side.k = (1:Int) from rfl, pathAttacked_kingside]
            rw [show ((4:Int) + castleStep Side.k) = 5 from by decide] at hatt
            simp [hatt]
          rw [if_pos hpath]
        | q =>
          have hb3 : emptySq st.board (homeRow clr) 3 = true ∧
              emptySq st.board (homeRow clr) 2 = true ∧
              emptySq st.board (homeRow clr) 1 = true := by
            have : blockedBetween st.board (homeRow clr) 8 3 0 (-1) = false := by
              rw [show ((4:Int) + castleStep Side.q) = 3 from by decide] at hbf
              exact hbf
            rw [blockedBetween_queenside] at this
            simpa using this
          have hmem : ({ r := homeRow clr, c := 3 } : MoveOpt) ∈
              genPseudoA st (homeRow clr) (rookCol Side.q) := by
            rw [hgen]
            unfold rayMoves
            rw [List.mem_flatMap]
            refine ⟨(0, 1), by decide, ?_⟩
            dsimp only
            rw [show homeRow clr + 0 = homeRow clr from by ring,
              show rookCol Side.q = (0:Int) from rfl, show ((0:Int) + 1) = 1 from by norm_num]
            rw [show (8:Nat) = 7+1 from rfl,
              rayFrom_cons _ _ _ _ _ _ _ (inBoundsB_of _ _ hrow0 hrow8 (by norm_num) (by norm_num))
                (getSq_of_empty _ _ _ hb3.2.2)]
            refine List.mem_cons_of_mem _ ?_
            rw [show homeRow clr + 0 = homeRow clr from by ring,
              show ((1:Int) + 1) = 2 from by norm_num]
            rw [show (7:Nat) = 6+1 from rfl,
              rayFrom_cons _ _ _ _ _ _ _ (inBoundsB_of _ _ hrow0 hrow8 (by norm_num) (by norm_num))
                (getSq_of_empty _ _ _ hb3.2.1)]
            refine List.mem_cons_of_mem _ ?_
            rw [show homeRow clr + 0 = homeRow clr from by ring,
              show ((2:Int) + 1) = 3 from by norm_num]
            rw [show (6:Nat) = 5+1 from rfl,
              rayFrom_cons _ _ _ _ _ _ _ (inBoundsB_of _ _ hrow0 hrow8 (by norm_num) (by norm_num))
                (getSq_of_empty _ _ _ hb3.1)]
            exact List.mem_cons_self _ _
          have hatt : attacksSquare st (other clr) (homeRow clr) (4 + castleStep Side.q) = true := by
            rw [show ((4:Int) + castleStep Side.q) = 3 from by decide]
            exact attacksSquare_of st (other clr) (homeRow clr) 3 (homeRow clr, rookCol Side.q)
              (by rcases hrow with h | h <;> rw [h] <;> decide)
              rk hr hoc _ hmem rfl rfl
          have hpath : pathAttacked st (other clr) (homeRow clr) 8 4
              (4 + 2*castleStep Side.q) (castleStep Side.q) = true := by
            rw [show ((4:Int) + 2*castleStep Side.q) = 2 from by decide,
              show castleStep Side.q = (-1:Int) from rfl, pathAttacked_queenside]
            rw [show ((4:Int) + castleStep Side.q) = 3 from by decide] at hatt
            simp [hatt]
          rw [if_pos hpath]

/-- White king e1 unmoved, an opposing (Black) unmoved rook on h1, f1/g1
empty — the natural instantiation of the claim. -/
def c10Session : Session :=
  { board := setSq (setSq (setSq emptyBoard 7 4 (some { t := .K, c := .w, moved := false }))
      7 7 (some { t := .R, c := .b, moved := false }))
      0 0 (some { t := .K, c := .b, moved := false }),
    turn := .w, selected := none, legal := [], lastDouble := none,
    capturedByWhite := [], capturedByBlack := [], movesLog := [],
    gameOver := false, history := [] }

/-- C10, refuted on the natural instantiation: with an unmoved White king
on e1, an unmoved Black rook on h1 and f1/g1 empty, the type/moved gate
of `canCastle` passes (demonstrating that the corner piece's color is
indeed never checked), yet the rook itself attacks the crossed square
f1, so the claimed "king's path unattacked" situation cannot occur and
`canCastle` returns false; no castling move is generated. -/
theorem c10_counterexample :
    getSq c10Session.board 7 7 = some { t := .R, c := .b, moved := false } ∧
    emptySq c10Session.board 7 5 = true ∧
    emptySq c10Session.board 7 6 = true ∧
    attacksSquare c10Session Color.b 7 5 = true ∧
    canCastle c10Session Color.w Side.k = false ∧
    (∀ m ∈ genPseudo c10Session 7 4 false, m.castle = none) := by decide

theorem c10_opposing_rook_never_castles_witness :
    canCastle c10Session Color.w Side.k = false :=
  c10_opposing_rook_never_castles c10Session Color.w Side.k
    { t := .R, c := .b, moved := false } (by decide) rfl (by decide)
